import Mathlib

/-!
Verification of the PDF table / image extraction tool (`streamlit_app.py`).

The program is a thin orchestration layer: it extracts tables (tabula) and
images (pdfplumber) from an uploaded PDF, assembles an XLSX workbook and a ZIP
archive, and offers both for download.  We embed the pure data flow of the
four processing functions — `extract_tables_from_pdf`, `extract_images_from_pdf`,
`extract_images_alternative_method`, `create_excel_with_tables_and_images`,
`create_images_zip` — shallowly in Lean:

* external library calls that may raise are modelled as `Except String`
  values carried by the input (the exception text plays the role of `str(e)`);
* the PNG rendering pipeline (`page.crop(...).to_image(resolution=150)` /
  `page.to_image(resolution=150)` followed by `save(format='PNG')`) is an
  oracle field on the page / embedded-image datum, producing the PNG byte
  payload or an exception;
* `st.error` / `st.warning` messages are collected in an output list of
  strings;
* the XLSX workbook is a list of named sheets, the ZIP archive a list of
  (entry name, payload) pairs in write order.

A toolkit about `Nat.repr` (decimal rendering, used by the f-strings that
derive filenames and sheet names) opens the proof part: its characters are
digits and it is injective, which drives the filename-distinctness proofs.
-/

namespace PdfTool

/-! ### Decimal rendering toolkit for `Nat.repr` -/

/-- Structural (fuel-free) decimal rendering; proved equal to the characters
of `Nat.repr`. -/
def toDigitsRec (n : Nat) : List Char :=
  if n < 10 then [Nat.digitChar n]
  else toDigitsRec (n / 10) ++ [Nat.digitChar (n % 10)]
decreasing_by exact Nat.div_lt_self (by omega) (by omega)


/-! ### Data model

The ad-hoc records passed between library calls, and oracle data standing for
the external libraries' behaviour on the uploaded PDF. -/

/-- A table extracted by tabula: a DataFrame, i.e. a header row of column
names and the data rows.  `to_excel(..., index=False)` writes the header row
followed by the data rows. -/
structure Table where
  header : List String
  rows : List (List String)
deriving Repr, DecidableEq

/-- The image record dict built by the extraction functions:
`{'page': ..., 'index': ..., 'bytes': ..., 'ext': ..., 'filename': ...}`. -/
structure ImageRecord where
  page : Nat
  index : Nat
  bytes : List Nat
  ext : String
  filename : String
deriving Repr, DecidableEq

deriving instance DecidableEq for Except

/-- An embedded raster object of a page (an element of `page.images`).
`cropRender` is the oracle for `page.crop((x0, y0, x1, y1)).to_image(resolution=150)`
followed by `save(format='PNG')`: the PNG byte payload, or the raised
exception's text.  `native` stands for the raw embedded stream bytes that
pdfplumber also exposes; the code never reads them. -/
structure EmbImage where
  x0 : Int
  y0 : Int
  x1 : Int
  y1 : Int
  native : List Nat
  cropRender : Except String (List Nat)
deriving Repr, DecidableEq

/-- A PDF page as seen through pdfplumber: its embedded images, whether
`page.figures` / `page.curves` / `page.rects` are non-empty, and the oracle
`pageRender` for `page.to_image(resolution=150)` saved as PNG. -/
structure Page where
  images : List EmbImage
  figures : Bool
  curves : Bool
  rects : Bool
  pageRender : Except String (List Nat)
deriving Repr, DecidableEq

/-! ### Derived filenames (the f-strings of the code) -/

/-- Filename `f"image_page{page_num + 1}_{img_index}.png"`; the argument
`page` is already the 1-based page number. -/
def embName (page idx : Nat) : String :=
  "image_page" ++ Nat.repr page ++ "_" ++ Nat.repr idx ++ ".png"

/-- Filename `f"page_{page_num + 1}_visual_content.png"` of the whole-page
fallback in `extract_images_from_pdf`. -/
def visName (page : Nat) : String :=
  "page_" ++ Nat.repr page ++ "_visual_content.png"

/-- Filename `f"page_{page_num + 1}.png"` of `extract_images_alternative_method`. -/
def pageName (page : Nat) : String :=
  "page_" ++ Nat.repr page ++ ".png"

/-- The record appended for a successfully cropped embedded image
(`pageNum` is the 0-based page index, as in the code's `enumerate`). -/
def embRecord (pageNum idx : Nat) (bs : List Nat) : ImageRecord :=
  { page := pageNum + 1, index := idx, bytes := bs, ext := "png",
    filename := embName (pageNum + 1) idx }

/-- The record appended by the whole-page fallback of `extract_images_from_pdf`. -/
def visRecord (pageNum : Nat) (bs : List Nat) : ImageRecord :=
  { page := pageNum + 1, index := 0, bytes := bs, ext := "png",
    filename := visName (pageNum + 1) }

/-- The record appended by `extract_images_alternative_method`. -/
def pageRecord (pageNum : Nat) (bs : List Nat) : ImageRecord :=
  { page := pageNum + 1, index := 0, bytes := bs, ext := "png",
    filename := pageName (pageNum + 1) }

/-! ### The extraction functions

Each function returns its result list together with the list of
`st.error` / `st.warning` messages it displays. -/

/-- `extract_tables_from_pdf`: `tabula.read_pdf(pdf_path, pages="all",
multiple_tables=True)` inside a catch-all; on failure shows an error and
returns `[]`.  The argument is the oracle for the `read_pdf` call. -/
def extract_tables_from_pdf (res : Except String (List Table)) :
    List Table × List String :=
  match res with
  | .ok tables => (tables, [])
  | .error e => ([], ["Error extracting tables: " ++ e])

/-- The inner `for img_index, img_obj in enumerate(page.images)` loop of
`extract_images_from_pdf`: each embedded image is cropped and re-encoded to
PNG; a per-image failure appends a warning and continues. -/
def extractEmbedded (pageNum : Nat) (idx : Nat) :
    List EmbImage → List ImageRecord × List String
  | [] => ([], [])
  | img :: rest =>
    let tail := extractEmbedded pageNum (idx + 1) rest
    match img.cropRender with
    | .ok bs => (embRecord pageNum idx bs :: tail.1, tail.2)
    | .error e =>
      (tail.1,
        ("Could not extract image " ++ Nat.repr idx ++ " from page " ++
          Nat.repr (pageNum + 1) ++ ": " ++ e) :: tail.2)

/-- The `# Alternative method: try to extract figures/charts` block: when the
page has no embedded images but has figures, curves or rects, the whole page
is rasterized; any exception in the block is swallowed (`continue` without a
message). -/
def pageFallback (pageNum : Nat) (page : Page) : List ImageRecord :=
  if page.images.isEmpty then
    if page.figures || page.curves || page.rects then
      match page.pageRender with
      | .ok bs => [visRecord pageNum bs]
      | .error _ => []
    else []
  else []

/-- One iteration of the `for page_num, page in enumerate(pdf.pages)` loop of
`extract_images_from_pdf`. -/
def extractPage (pageNum : Nat) (page : Page) : List ImageRecord × List String :=
  let emb := extractEmbedded pageNum 0 page.images
  (emb.1 ++ pageFallback pageNum page, emb.2)

/-- The page loop of `extract_images_from_pdf`, carrying the 0-based page
counter. -/
def extractPages (pageNum : Nat) : List Page → List ImageRecord × List String
  | [] => ([], [])
  | p :: ps =>
    let here := extractPage pageNum p
    let rest := extractPages (pageNum + 1) ps
    (here.1 ++ rest.1, here.2 ++ rest.2)

/-- `extract_images_from_pdf`: the whole function.  The argument is the
oracle for `pdfplumber.open(pdf_path)`: the page list, or the raised
exception's text; on failure it shows an error and returns `[]`. -/
def extract_images_from_pdf (pdf : Except String (List Page)) :
    List ImageRecord × List String :=
  match pdf with
  | .ok pages => extractPages 0 pages
  | .error e => ([], ["Error extracting images: " ++ e])

/-- The page loop of `extract_images_alternative_method`: every page is
rasterized to PNG; a per-page failure appends a warning and continues. -/
def altPages (pageNum : Nat) : List Page → List ImageRecord × List String
  | [] => ([], [])
  | p :: ps =>
    let rest := altPages (pageNum + 1) ps
    match p.pageRender with
    | .ok bs => (pageRecord pageNum bs :: rest.1, rest.2)
    | .error e =>
      (rest.1,
        ("Could not convert page " ++ Nat.repr (pageNum + 1) ++
          " to image: " ++ e) :: rest.2)

/-- `extract_images_alternative_method`: the whole function. -/
def extract_images_alternative_method (pdf : Except String (List Page)) :
    List ImageRecord × List String :=
  match pdf with
  | .ok pages => altPages 0 pages
  | .error e => ([], ["Error in alternative image extraction: " ++ e])

/-! ### Workbook assembly -/

/-- A placement on the `Extracted_Images` sheet: the picture anchored at
`A{row}`, the caption written to `E{row}` and the filename to `E{row + 1}`. -/
structure ImgPlacement where
  anchor : String
  bytes : List Nat
  captionCell : String
  caption : String
  filenameCell : String
  filename : String
deriving Repr, DecidableEq

/-- Content of one worksheet: a cell grid written by `DataFrame.to_excel`,
or the image sheet built by the `openpyxl` pass. -/
inductive SheetContent where
  | grid (cells : List (List String))
  | imageSheet (items : List ImgPlacement)
deriving Repr, DecidableEq

/-- A named worksheet of the output workbook. -/
structure Sheet where
  name : String
  content : SheetContent
deriving Repr, DecidableEq

/-- `DataFrame.to_excel(writer, sheet_name=..., index=False)` writes the
header row followed by the data rows. -/
def tableGrid (t : Table) : List (List String) :=
  t.header :: t.rows

/-- The `for i, table in enumerate(tables)` loop of the `pd.ExcelWriter`
block, carrying the 0-based table counter: sheet `f"Table_{i+1}"` per table. -/
def tableSheetsFrom (i : Nat) : List Table → List Sheet
  | [] => []
  | t :: ts =>
    ⟨"Table_" ++ Nat.repr (i + 1), .grid (tableGrid t)⟩ :: tableSheetsFrom (i + 1) ts

/-- The `pd.ExcelWriter` block of `create_excel_with_tables_and_images`:
one sheet per table, or the `No_Tables` placeholder when the list is empty. -/
def tableSheets (tables : List Table) : List Sheet :=
  if tables.isEmpty then
    [⟨"No_Tables", .grid [["Message"], ["No tables found in PDF"]]⟩]
  else tableSheetsFrom 0 tables

/-- The image loop of the `openpyxl` pass, carrying the running `row`
(starting at 1, advanced by 20 per successfully added image).  `imgFail`
is the oracle for `ExcelImage(img_path)` / `ws.add_image` raising on the
written image file: `some e` means the exception `e` is raised, in which
case a warning is shown and the image (and its caption cells) are skipped. -/
def buildImageItems (imgFail : List Nat → Option String) (row : Nat) :
    List ImageRecord → List ImgPlacement × List String
  | [] => ([], [])
  | r :: rs =>
    match imgFail r.bytes with
    | none =>
      let rest := buildImageItems imgFail (row + 20) rs
      (⟨"A" ++ Nat.repr row, r.bytes,
        "E" ++ Nat.repr row,
        "Page " ++ Nat.repr r.page ++ ", Image " ++ Nat.repr (r.index + 1),
        "E" ++ Nat.repr (row + 1), r.filename⟩ :: rest.1, rest.2)
    | some e =>
      let rest := buildImageItems imgFail row rs
      (rest.1,
        ("Could not add image " ++ r.filename ++ " to Excel: " ++ e) :: rest.2)

/-- `create_excel_with_tables_and_images`: the table pass writes the table
sheets (or the placeholder); only when the image list is non-empty is the
workbook re-opened and an `Extracted_Images` sheet appended.  Returns the
sheets of the saved workbook and the warnings shown. -/
def create_excel_with_tables_and_images (tables : List Table)
    (images : List ImageRecord) (imgFail : List Nat → Option String) :
    List Sheet × List String :=
  let base := tableSheets tables
  if images.isEmpty then (base, [])
  else
    let items := buildImageItems imgFail 1 images
    (base ++ [⟨"Extracted_Images", .imageSheet items.1⟩], items.2)

/-! ### Archive assembly -/

/-- `ZipFile.writestr(name, data)`: appends one entry to the archive. -/
def writestr (archive : List (String × List Nat)) (name : String)
    (data : List Nat) : List (String × List Nat) :=
  archive ++ [(name, data)]

/-- `create_images_zip`: writes every record's bytes under its filename, in
list order. -/
def create_images_zip (images : List ImageRecord) : List (String × List Nat) :=
  images.foldl (fun z r => writestr z r.filename r.bytes) []

/-! ### Filename shapes transcribed from the specification

The spec (§6, Output 2) enumerates the derived filename shapes as
`image_page{N}_{i}.{ext}` and `page_{N}.png`.  These two definitions follow
the spec's words, to be compared with the filenames the code derives. -/

/-- Spec shape `image_page{N}_{i}.{ext}`. -/
def specEmbShape (s : String) : Prop :=
  ∃ N i ext, s = "image_page" ++ Nat.repr N ++ "_" ++ Nat.repr i ++ "." ++ ext

/-- Spec shape `page_{N}.png`. -/
def specPageShape (s : String) : Prop :=
  ∃ N, s = "page_" ++ Nat.repr N ++ ".png"

/-- The third shape actually produced by the code's whole-page fallback,
`page_{N}_visual_content.png`; absent from the spec's enumeration. -/
def specVisShape (s : String) : Prop :=
  ∃ N, s = "page_" ++ Nat.repr N ++ "_visual_content.png"

/-- Erases the native embedded-stream bytes of every image of a page; the
extraction output is invariant under this, i.e. the extractor never reads an
embedded image's native bytes. -/
def stripNative (pg : Page) : Page :=
  { pg with images := pg.images.map fun im => { im with native := [] } }

/-! ### Concrete sample data used by witnesses and counterexamples -/

/-- An image record used by witness instantiations. -/
def sampleRecord : ImageRecord :=
  ⟨1, 0, [7, 8], "png", "a.png"⟩

/-- A one-column, one-row table. -/
def sampleTable : Table :=
  ⟨["h"], [["v"]]⟩

/-- Image-embedding oracle that never fails. -/
def noImgFail : List Nat → Option String :=
  fun _ => none

/-- An embedded image whose crop renders successfully. -/
def okImage : EmbImage :=
  ⟨0, 0, 1, 1, [9], .ok [7]⟩

/-- An embedded image whose extraction raises. -/
def badImage : EmbImage :=
  ⟨0, 0, 1, 1, [9], .error "bad"⟩

/-- A page whose first embedded image fails and whose second succeeds. -/
def samplePage : Page :=
  ⟨[badImage, okImage], false, false, false, .error "nope"⟩

/-- A page with no embedded images but with figures: triggers the
whole-page fallback. -/
def visPage : Page :=
  ⟨[], true, false, false, .ok [1]⟩

/-- A page with no embedded images and no figures, curves or rects. -/
def blankPage : Page :=
  ⟨[], false, false, false, .ok [1]⟩

/-! ### Proofs: decimal rendering toolkit -/

theorem digitChar_isDigit (m : Nat) (h : m < 10) : (Nat.digitChar m).isDigit = true := by
  interval_cases m <;> decide

theorem digitChar_inj (m k : Nat) (hm : m < 10) (hk : k < 10)
    (h : Nat.digitChar m = Nat.digitChar k) : m = k := by
  interval_cases m <;> interval_cases k <;> first | rfl | exact absurd h (by decide)

theorem toDigitsRec_eq (n : Nat) :
    toDigitsRec n =
      if n < 10 then [Nat.digitChar n]
      else toDigitsRec (n / 10) ++ [Nat.digitChar (n % 10)] := by
  conv_lhs => rw [toDigitsRec]

theorem toDigitsRec_ne_nil (n : Nat) : toDigitsRec n ≠ [] := by
  rw [toDigitsRec_eq]
  split <;> simp

theorem toDigitsRec_isDigit (n : Nat) : ∀ c ∈ toDigitsRec n, c.isDigit = true := by
  induction n using Nat.strong_induction_on with
  | _ n ih =>
    rw [toDigitsRec]
    split
    · intro c hc
      simp only [List.mem_singleton] at hc
      subst hc
      exact digitChar_isDigit n (by omega)
    · intro c hc
      rw [List.mem_append] at hc
      rcases hc with h | h
      · exact ih (n / 10) (Nat.div_lt_self (by omega) (by omega)) c h
      · simp only [List.mem_singleton] at h
        subst h
        exact digitChar_isDigit _ (by omega)

theorem toDigitsRec_inj (m : Nat) : ∀ n, toDigitsRec m = toDigitsRec n → m = n := by
  induction m using Nat.strong_induction_on with
  | _ m ih =>
    intro n h
    rw [toDigitsRec_eq m, toDigitsRec_eq n] at h
    split at h <;> split at h
    · simp only [List.cons.injEq, and_true] at h
      exact digitChar_inj m n (by omega) (by omega) h
    · exfalso
      obtain ⟨a, l, hl⟩ := List.exists_cons_of_ne_nil (toDigitsRec_ne_nil (n / 10))
      rw [hl] at h
      simp at h
    · exfalso
      obtain ⟨a, l, hl⟩ := List.exists_cons_of_ne_nil (toDigitsRec_ne_nil (m / 10))
      rw [hl] at h
      simp at h
    · have hinj := List.append_inj' h rfl
      obtain ⟨h1, h2⟩ := hinj
      simp only [List.cons.injEq, and_true] at h2
      have hmod := digitChar_inj (m % 10) (n % 10) (by omega) (by omega) h2
      have hdiv := ih (m / 10) (Nat.div_lt_self (by omega) (by omega)) (n / 10) h1
      omega

theorem toDigitsCore_eq (fuel : Nat) :
    ∀ (n : Nat) (ds : List Char), n < fuel →
      Nat.toDigitsCore 10 fuel n ds = toDigitsRec n ++ ds := by
  induction fuel with
  | zero => intro n ds h; omega
  | succ fuel ih =>
    intro n ds h
    simp only [Nat.toDigitsCore]
    by_cases h10 : n < 10
    · have hz : n / 10 = 0 := by omega
      rw [if_pos hz, toDigitsRec_eq n, if_pos h10]
      have : n % 10 = n := by omega
      rw [this]
      rfl
    · have hz : ¬ n / 10 = 0 := by omega
      rw [if_neg hz]
      have hlt : n / 10 < fuel := by
        have := Nat.div_lt_self (show 0 < n by omega) (show 1 < 10 by omega)
        omega
      rw [ih (n / 10) _ hlt, toDigitsRec_eq n, if_neg h10, List.append_assoc]
      rfl

theorem repr_data (n : Nat) : (Nat.repr n).data = toDigitsRec n := by
  show (Nat.toDigits 10 n).asString.data = toDigitsRec n
  rw [Nat.toDigits, toDigitsCore_eq (n + 1) n [] (by omega)]
  simp [List.asString]

theorem repr_inj (m n : Nat) (h : Nat.repr m = Nat.repr n) : m = n := by
  have hd := congrArg String.data h
  rw [repr_data, repr_data] at hd
  exact toDigitsRec_inj m n hd

theorem repr_isDigit (n : Nat) : ∀ c ∈ (Nat.repr n).data, c.isDigit = true := by
  rw [repr_data]
  exact toDigitsRec_isDigit n

theorem underscore_not_mem_repr (n : Nat) : '_' ∉ (Nat.repr n).data := by
  intro h
  have := repr_isDigit n '_' h
  exact absurd this (by decide)

/-- Splitting a character list at a separator that occurs in neither prefix. -/
theorem append_sep_inj (c : Char) :
    ∀ (xs zs ys ws : List Char), c ∉ xs → c ∉ zs →
      xs ++ c :: ys = zs ++ c :: ws → xs = zs ∧ ys = ws := by
  intro xs
  induction xs with
  | nil =>
    intro zs ys ws _ hz h
    cases zs with
    | nil => simpa using h
    | cons a zs =>
      exfalso
      simp only [List.nil_append, List.cons_append, List.cons.injEq] at h
      exact hz (h.1 ▸ List.mem_cons_self a zs)
  | cons x xs ih =>
    intro zs ys ws hx hz h
    cases zs with
    | nil =>
      exfalso
      simp only [List.cons_append, List.nil_append, List.cons.injEq] at h
      exact hx (h.1 ▸ List.mem_cons_self x xs)
    | cons a zs =>
      simp only [List.cons_append, List.cons.injEq] at h
      obtain ⟨rfl, h2⟩ := h
      have hx' : c ∉ xs := fun hm => hx (List.mem_cons_of_mem _ hm)
      have hz' : c ∉ zs := fun hm => hz (List.mem_cons_of_mem _ hm)
      obtain ⟨rfl, rfl⟩ := ih zs ys ws hx' hz' h2
      exact ⟨rfl, rfl⟩

theorem string_data_inj (s t : String) (h : s.data = t.data) : s = t := by
  cases s; cases t; simp_all

/-! ### Characterization lemmas for the extraction loops -/

theorem mem_extractEmbedded (k : Nat) (imgs : List EmbImage) :
    ∀ (i0 : Nat) (r : ImageRecord),
      r ∈ (extractEmbedded k i0 imgs).1 ↔
        ∃ j img bs, imgs[j]? = some img ∧ img.cropRender = .ok bs ∧
          r = embRecord k (i0 + j) bs := by
  induction imgs with
  | nil => intro i0 r; simp [extractEmbedded]
  | cons img rest ih =>
    intro i0 r
    simp only [extractEmbedded]
    cases hcr : img.cropRender with
    | ok bs =>
      simp only [List.mem_cons]
      constructor
      · rintro (rfl | hr)
        · exact ⟨0, img, bs, by simp, hcr, by simp⟩
        · obtain ⟨j, img', bs', h1, h2, h3⟩ := (ih (i0 + 1) r).mp hr
          refine ⟨j + 1, img', bs', by simpa using h1, h2, ?_⟩
          rw [h3]
          have : i0 + 1 + j = i0 + (j + 1) := by omega
          rw [this]
      · rintro ⟨j, img', bs', h1, h2, h3⟩
        cases j with
        | zero =>
          simp only [List.getElem?_cons_zero, Option.some.injEq] at h1
          subst h1
          rw [hcr] at h2
          cases h2
          left
          simpa using h3
        | succ j =>
          right
          refine (ih (i0 + 1) r).mpr ⟨j, img', bs', by simpa using h1, h2, ?_⟩
          rw [h3]
          have : i0 + 1 + j = i0 + (j + 1) := by omega
          rw [this]
    | error e =>
      constructor
      · intro hr
        obtain ⟨j, img', bs', h1, h2, h3⟩ := (ih (i0 + 1) r).mp hr
        refine ⟨j + 1, img', bs', by simpa using h1, h2, ?_⟩
        rw [h3]
        have : i0 + 1 + j = i0 + (j + 1) := by omega
        rw [this]
      · rintro ⟨j, img', bs', h1, h2, h3⟩
        cases j with
        | zero =>
          simp only [List.getElem?_cons_zero, Option.some.injEq] at h1
          subst h1
          rw [hcr] at h2
          cases h2
        | succ j =>
          refine (ih (i0 + 1) r).mpr ⟨j, img', bs', by simpa using h1, h2, ?_⟩
          rw [h3]
          have : i0 + 1 + j = i0 + (j + 1) := by omega
          rw [this]

theorem mem_extractEmbedded_warn (k : Nat) (imgs : List EmbImage) :
    ∀ (i0 : Nat) (s : String),
      s ∈ (extractEmbedded k i0 imgs).2 ↔
        ∃ j img e, imgs[j]? = some img ∧ img.cropRender = .error e ∧
          s = "Could not extract image " ++ Nat.repr (i0 + j) ++ " from page " ++
            Nat.repr (k + 1) ++ ": " ++ e := by
  induction imgs with
  | nil => intro i0 s; simp [extractEmbedded]
  | cons img rest ih =>
    intro i0 s
    simp only [extractEmbedded]
    cases hcr : img.cropRender with
    | error e =>
      simp only [List.mem_cons]
      constructor
      · rintro (rfl | hs)
        · exact ⟨0, img, e, by simp, hcr, by simp⟩
        · obtain ⟨j, img', e', h1, h2, h3⟩ := (ih (i0 + 1) s).mp hs
          refine ⟨j + 1, img', e', by simpa using h1, h2, ?_⟩
          rw [h3]
          have : i0 + 1 + j = i0 + (j + 1) := by omega
          rw [this]
      · rintro ⟨j, img', e', h1, h2, h3⟩
        cases j with
        | zero =>
          simp only [List.getElem?_cons_zero, Option.some.injEq] at h1
          subst h1
          rw [hcr] at h2
          cases h2
          left
          simpa using h3
        | succ j =>
          right
          refine (ih (i0 + 1) s).mpr ⟨j, img', e', by simpa using h1, h2, ?_⟩
          rw [h3]
          have : i0 + 1 + j = i0 + (j + 1) := by omega
          rw [this]
    | ok bs =>
      constructor
      · intro hs
        obtain ⟨j, img', e', h1, h2, h3⟩ := (ih (i0 + 1) s).mp hs
        refine ⟨j + 1, img', e', by simpa using h1, h2, ?_⟩
        rw [h3]
        have : i0 + 1 + j = i0 + (j + 1) := by omega
        rw [this]
      · rintro ⟨j, img', e', h1, h2, h3⟩
        cases j with
        | zero =>
          simp only [List.getElem?_cons_zero, Option.some.injEq] at h1
          subst h1
          rw [hcr] at h2
          cases h2
        | succ j =>
          refine (ih (i0 + 1) s).mpr ⟨j, img', e', by simpa using h1, h2, ?_⟩
          rw [h3]
          have : i0 + 1 + j = i0 + (j + 1) := by omega
          rw [this]

theorem mem_pageFallback (k : Nat) (pg : Page) (r : ImageRecord) :
    r ∈ pageFallback k pg ↔
      pg.images = [] ∧ (pg.figures || pg.curves || pg.rects) = true ∧
        ∃ bs, pg.pageRender = .ok bs ∧ r = visRecord k bs := by
  unfold pageFallback
  by_cases h1 : pg.images.isEmpty
  · rw [if_pos h1]
    have h1' : pg.images = [] := List.isEmpty_iff.mp h1
    by_cases h2 : (pg.figures || pg.curves || pg.rects) = true
    · rw [if_pos h2]
      cases hpr : pg.pageRender with
      | ok bs => simp [h1', h2, hpr, eq_comm]
      | error e => simp [h1', h2, hpr]
    · rw [if_neg h2]
      simp [h2]
  · rw [if_neg h1]
    have h1' : ¬ pg.images = [] := fun h => h1 (by simp [h])
    simp [h1']

theorem mem_extractPage (k : Nat) (pg : Page) (r : ImageRecord) :
    r ∈ (extractPage k pg).1 ↔
      (∃ j img bs, pg.images[j]? = some img ∧ img.cropRender = .ok bs ∧
        r = embRecord k j bs) ∨
      (pg.images = [] ∧ (pg.figures || pg.curves || pg.rects) = true ∧
        ∃ bs, pg.pageRender = .ok bs ∧ r = visRecord k bs) := by
  show r ∈ (extractEmbedded k 0 pg.images).1 ++ pageFallback k pg ↔ _
  rw [List.mem_append, mem_extractEmbedded, mem_pageFallback]
  simp only [Nat.zero_add]

theorem extractPage_warn (k : Nat) (pg : Page) :
    (extractPage k pg).2 = (extractEmbedded k 0 pg.images).2 := rfl

theorem mem_extractPages (ps : List Page) :
    ∀ (k : Nat) (r : ImageRecord),
      r ∈ (extractPages k ps).1 ↔
        ∃ p pg, ps[p]? = some pg ∧ r ∈ (extractPage (k + p) pg).1 := by
  induction ps with
  | nil => intro k r; simp [extractPages]
  | cons pg rest ih =>
    intro k r
    simp only [extractPages, List.mem_append]
    constructor
    · rintro (hr | hr)
      · exact ⟨0, pg, by simp, by simpa using hr⟩
      · obtain ⟨p, pg', h1, h2⟩ := (ih (k + 1) r).mp hr
        refine ⟨p + 1, pg', by simpa using h1, ?_⟩
        have : k + 1 + p = k + (p + 1) := by omega
        rwa [this] at h2
    · rintro ⟨p, pg', h1, h2⟩
      cases p with
      | zero =>
        simp only [List.getElem?_cons_zero, Option.some.injEq] at h1
        subst h1
        left
        simpa using h2
      | succ p =>
        right
        refine (ih (k + 1) r).mpr ⟨p, pg', by simpa using h1, ?_⟩
        have : k + 1 + p = k + (p + 1) := by omega
        rwa [this]

theorem mem_extractPages_warn (ps : List Page) :
    ∀ (k : Nat) (s : String),
      s ∈ (extractPages k ps).2 ↔
        ∃ p pg, ps[p]? = some pg ∧ s ∈ (extractPage (k + p) pg).2 := by
  induction ps with
  | nil => intro k s; simp [extractPages]
  | cons pg rest ih =>
    intro k s
    simp only [extractPages, List.mem_append]
    constructor
    · rintro (hs | hs)
      · exact ⟨0, pg, by simp, by simpa using hs⟩
      · obtain ⟨p, pg', h1, h2⟩ := (ih (k + 1) s).mp hs
        refine ⟨p + 1, pg', by simpa using h1, ?_⟩
        have : k + 1 + p = k + (p + 1) := by omega
        rwa [this] at h2
    · rintro ⟨p, pg', h1, h2⟩
      cases p with
      | zero =>
        simp only [List.getElem?_cons_zero, Option.some.injEq] at h1
        subst h1
        left
        simpa using h2
      | succ p =>
        right
        refine (ih (k + 1) s).mpr ⟨p, pg', by simpa using h1, ?_⟩
        have : k + 1 + p = k + (p + 1) := by omega
        rwa [this]

theorem mem_altPages (ps : List Page) :
    ∀ (k : Nat) (r : ImageRecord),
      r ∈ (altPages k ps).1 ↔
        ∃ p pg bs, ps[p]? = some pg ∧ pg.pageRender = .ok bs ∧
          r = pageRecord (k + p) bs := by
  induction ps with
  | nil => intro k r; simp [altPages]
  | cons pg rest ih =>
    intro k r
    simp only [altPages]
    cases hpr : pg.pageRender with
    | ok bs =>
      simp only [List.mem_cons]
      constructor
      · rintro (rfl | hr)
        · exact ⟨0, pg, bs, by simp, hpr, by simp⟩
        · obtain ⟨p, pg', bs', h1, h2, h3⟩ := (ih (k + 1) r).mp hr
          refine ⟨p + 1, pg', bs', by simpa using h1, h2, ?_⟩
          rw [h3]
          have : k + 1 + p = k + (p + 1) := by omega
          rw [this]
      · rintro ⟨p, pg', bs', h1, h2, h3⟩
        cases p with
        | zero =>
          simp only [List.getElem?_cons_zero, Option.some.injEq] at h1
          subst h1
          rw [hpr] at h2
          cases h2
          left
          simpa using h3
        | succ p =>
          right
          refine (ih (k + 1) r).mpr ⟨p, pg', bs', by simpa using h1, h2, ?_⟩
          rw [h3]
          have : k + 1 + p = k + (p + 1) := by omega
          rw [this]
    | error e =>
      constructor
      · intro hr
        obtain ⟨p, pg', bs', h1, h2, h3⟩ := (ih (k + 1) r).mp hr
        refine ⟨p + 1, pg', bs', by simpa using h1, h2, ?_⟩
        rw [h3]
        have : k + 1 + p = k + (p + 1) := by omega
        rw [this]
      · rintro ⟨p, pg', bs', h1, h2, h3⟩
        cases p with
        | zero =>
          simp only [List.getElem?_cons_zero, Option.some.injEq] at h1
          subst h1
          rw [hpr] at h2
          cases h2
        | succ p =>
          refine (ih (k + 1) r).mpr ⟨p, pg', bs', by simpa using h1, h2, ?_⟩
          rw [h3]
          have : k + 1 + p = k + (p + 1) := by omega
          rw [this]

/-! ### Filename lemmas -/

theorem repr_data_inj (m n : Nat) (h : (Nat.repr m).data = (Nat.repr n).data) :
    m = n := by
  rw [repr_data, repr_data] at h
  exact toDigitsRec_inj m n h

theorem data_embName (p i : Nat) :
    (embName p i).data =
      "image_page".data ++
        ((Nat.repr p).data ++ ('_' :: ((Nat.repr i).data ++ ".png".data))) := by
  have h : "_".data = ['_'] := rfl
  simp [embName, String.data_append, List.append_assoc, h]

theorem data_visName (p : Nat) :
    (visName p).data =
      "page_".data ++ ((Nat.repr p).data ++ "_visual_content.png".data) := by
  simp [visName, String.data_append, List.append_assoc]

theorem data_pageName (p : Nat) :
    (pageName p).data =
      "page_".data ++ ((Nat.repr p).data ++ ".png".data) := by
  simp [pageName, String.data_append, List.append_assoc]

theorem embName_inj (p i q j : Nat) (h : embName p i = embName q j) :
    p = q ∧ i = j := by
  have hd := congrArg String.data h
  rw [data_embName, data_embName] at hd
  have hd2 := List.append_cancel_left hd
  obtain ⟨h1, h2⟩ := append_sep_inj '_' _ _ _ _
    (underscore_not_mem_repr p) (underscore_not_mem_repr q) hd2
  exact ⟨repr_data_inj p q h1, repr_data_inj i j (List.append_cancel_right h2)⟩

theorem visName_inj (p q : Nat) (h : visName p = visName q) : p = q := by
  have hd := congrArg String.data h
  rw [data_visName, data_visName] at hd
  exact repr_data_inj p q
    (List.append_cancel_right (List.append_cancel_left hd))

theorem pageName_inj (p q : Nat) (h : pageName p = pageName q) : p = q := by
  have hd := congrArg String.data h
  rw [data_pageName, data_pageName] at hd
  exact repr_data_inj p q
    (List.append_cancel_right (List.append_cancel_left hd))

theorem embName_ne_visName (p i q : Nat) : embName p i ≠ visName q := by
  intro h
  have hd := congrArg String.data h
  rw [data_embName, data_visName] at hd
  have hh := congrArg List.head? hd
  rw [show "image_page".data = 'i' :: "mage_page".data from rfl,
    show "page_".data = 'p' :: "age_".data from rfl] at hh
  simp only [List.cons_append, List.head?_cons, Option.some.injEq] at hh
  exact absurd hh (by decide)

theorem embName_ne_pageName (p i q : Nat) : embName p i ≠ pageName q := by
  intro h
  have hd := congrArg String.data h
  rw [data_embName, data_pageName] at hd
  have hh := congrArg List.head? hd
  rw [show "image_page".data = 'i' :: "mage_page".data from rfl,
    show "page_".data = 'p' :: "age_".data from rfl] at hh
  simp only [List.cons_append, List.head?_cons, Option.some.injEq] at hh
  exact absurd hh (by decide)

theorem visName_ne_pageName (p q : Nat) : visName p ≠ pageName q := by
  intro h
  have hd := congrArg String.data h
  rw [data_visName, data_pageName] at hd
  have hd2 := List.append_cancel_left hd
  have hmem : '_' ∈ (Nat.repr p).data ++ "_visual_content.png".data :=
    List.mem_append.mpr (Or.inr (by decide))
  rw [hd2] at hmem
  rcases List.mem_append.mp hmem with hin | hin
  · exact underscore_not_mem_repr q hin
  · exact absurd hin (by decide)

/-- A filename produced by `extract_images_from_pdf` determines the page
number it mentions. -/
theorem filename_page_eq (s : String) (a b i j : Nat)
    (h1 : s = embName a i ∨ s = visName a)
    (h2 : s = embName b j ∨ s = visName b) : a = b := by
  rcases h1 with h1 | h1 <;> rcases h2 with h2 | h2
  · exact (embName_inj a i b j (h1 ▸ h2 ▸ rfl)).1
  · exact absurd (h1 ▸ h2 ▸ rfl) (embName_ne_visName a i b)
  · exact absurd (h2 ▸ h1 ▸ rfl) (embName_ne_visName b j a)
  · exact visName_inj a b (h1 ▸ h2 ▸ rfl)

/-! ### Distinctness of the produced filenames -/

theorem extractPage_fields (k : Nat) (pg : Page) (r : ImageRecord)
    (h : r ∈ (extractPage k pg).1) :
    r.page = k + 1 ∧
      (r.filename = embName (k + 1) r.index ∨ r.filename = visName (k + 1)) := by
  rcases (mem_extractPage k pg r).mp h with
    ⟨j, img, bs, _, _, rfl⟩ | ⟨_, _, bs, _, rfl⟩
  · exact ⟨rfl, Or.inl rfl⟩
  · exact ⟨rfl, Or.inr rfl⟩

theorem extractEmbedded_names_nodup (k : Nat) (imgs : List EmbImage) :
    ∀ i0 : Nat, (((extractEmbedded k i0 imgs).1).map ImageRecord.filename).Nodup := by
  induction imgs with
  | nil => intro i0; simp [extractEmbedded]
  | cons img rest ih =>
    intro i0
    simp only [extractEmbedded]
    cases hcr : img.cropRender with
    | error e => simpa using ih (i0 + 1)
    | ok bs =>
      simp only [List.map_cons, List.nodup_cons]
      refine ⟨?_, ih (i0 + 1)⟩
      intro hmem
      obtain ⟨r, hr, hfn⟩ := List.mem_map.mp hmem
      obtain ⟨j, img', bs', _, _, rfl⟩ :=
        (mem_extractEmbedded k rest (i0 + 1) r).mp hr
      have := (embName_inj _ _ _ _ hfn).2
      omega

theorem pageFallback_cases (k : Nat) (pg : Page) :
    pageFallback k pg = [] ∨ ∃ bs, pageFallback k pg = [visRecord k bs] := by
  unfold pageFallback
  by_cases h1 : pg.images.isEmpty
  · rw [if_pos h1]
    by_cases h2 : (pg.figures || pg.curves || pg.rects) = true
    · rw [if_pos h2]
      cases hpr : pg.pageRender with
      | ok bs => exact Or.inr ⟨bs, rfl⟩
      | error e => exact Or.inl rfl
    · rw [if_neg h2]
      exact Or.inl rfl
  · rw [if_neg h1]
    exact Or.inl rfl

theorem extractPage_names_nodup (k : Nat) (pg : Page) :
    (((extractPage k pg).1).map ImageRecord.filename).Nodup := by
  show (((extractEmbedded k 0 pg.images).1 ++ pageFallback k pg).map
    ImageRecord.filename).Nodup
  by_cases h : pg.images.isEmpty
  · have h' : pg.images = [] := List.isEmpty_iff.mp h
    rw [h']
    show (([] ++ pageFallback k pg).map ImageRecord.filename).Nodup
    rw [List.nil_append]
    rcases pageFallback_cases k pg with hf | ⟨bs, hf⟩ <;> rw [hf] <;> simp
  · have h' : pageFallback k pg = [] := by
      unfold pageFallback
      rw [if_neg h]
    rw [h', List.append_nil]
    exact extractEmbedded_names_nodup k pg.images 0

theorem extractPages_names_nodup (ps : List Page) :
    ∀ k : Nat, (((extractPages k ps).1).map ImageRecord.filename).Nodup := by
  induction ps with
  | nil => intro k; simp [extractPages]
  | cons pg rest ih =>
    intro k
    simp only [extractPages, List.map_append]
    rw [List.nodup_append]
    refine ⟨extractPage_names_nodup k pg, ih (k + 1), ?_⟩
    intro s hs1 hs2
    obtain ⟨r1, hr1, rfl⟩ := List.mem_map.mp hs1
    obtain ⟨r2, hr2, hfn⟩ := List.mem_map.mp hs2
    have f1 := extractPage_fields k pg r1 hr1
    obtain ⟨p, pg', _, hr2'⟩ := (mem_extractPages rest (k + 1) r2).mp hr2
    have f2 := extractPage_fields (k + 1 + p) pg' r2 hr2'
    have hpe := filename_page_eq r1.filename (k + 1) (k + 1 + p + 1)
      r1.index r2.index f1.2 (hfn ▸ f2.2)
    omega

theorem altPages_fields (ps : List Page) :
    ∀ (k : Nat) (r : ImageRecord), r ∈ (altPages k ps).1 →
      k + 1 ≤ r.page ∧ r.filename = pageName r.page := by
  intro k r h
  obtain ⟨p, pg, bs, _, _, rfl⟩ := (mem_altPages ps k r).mp h
  refine ⟨?_, rfl⟩
  show k + 1 ≤ (pageRecord (k + p) bs).page
  simp only [pageRecord]
  omega

theorem altPages_names_nodup (ps : List Page) :
    ∀ k : Nat, (((altPages k ps).1).map ImageRecord.filename).Nodup := by
  induction ps with
  | nil => intro k; simp [altPages]
  | cons pg rest ih =>
    intro k
    simp only [altPages]
    cases hpr : pg.pageRender with
    | error e => simpa using ih (k + 1)
    | ok bs =>
      simp only [List.map_cons, List.nodup_cons]
      refine ⟨?_, ih (k + 1)⟩
      intro hmem
      obtain ⟨r, hr, hfn⟩ := List.mem_map.mp hmem
      obtain ⟨p, pg', bs', _, _, rfl⟩ := (mem_altPages rest (k + 1) r).mp hr
      have := pageName_inj _ _ hfn
      omega

/-! ### Workbook lemmas -/

theorem tableSheetsFrom_length (ts : List Table) :
    ∀ i : Nat, (tableSheetsFrom i ts).length = ts.length := by
  induction ts with
  | nil => intro i; rfl
  | cons t ts ih =>
    intro i
    simp only [tableSheetsFrom, List.length_cons, ih (i + 1)]

theorem tableSheetsFrom_getElem (ts : List Table) :
    ∀ (i k : Nat), (tableSheetsFrom i ts)[k]? =
      (ts[k]?).map fun t => ⟨"Table_" ++ Nat.repr (i + k + 1), .grid (tableGrid t)⟩ := by
  induction ts with
  | nil => intro i k; simp [tableSheetsFrom]
  | cons t ts ih =>
    intro i k
    cases k with
    | zero => simp [tableSheetsFrom]
    | succ k =>
      simp only [tableSheetsFrom, List.getElem?_cons_succ]
      rw [ih (i + 1) k]
      have : i + 1 + k + 1 = i + (k + 1) + 1 := by omega
      rw [this]

theorem tableName_congr (a b : Nat) (h : a = b) :
    "Table_" ++ Nat.repr a = "Table_" ++ Nat.repr b := by
  rw [h]

theorem tableSheetsFrom_names (ts : List Table) :
    ∀ i : Nat, (tableSheetsFrom i ts).map Sheet.name =
      (List.range ts.length).map (fun k => "Table_" ++ Nat.repr (i + k + 1)) := by
  induction ts with
  | nil => intro i; simp [tableSheetsFrom]
  | cons t ts ih =>
    intro i
    simp only [tableSheetsFrom, List.map_cons, List.length_cons]
    rw [List.range_succ_eq_map]
    simp only [List.map_cons, List.map_map]
    congr 1
    rw [ih (i + 1)]
    apply List.map_congr_left
    intro k _
    simp only [Function.comp_apply]
    exact tableName_congr _ _ (by omega)

/-- A string whose first character is not `'T'` is not a table sheet name. -/
theorem ne_table_name (s : String) (c : Char) (l : List Char)
    (hs : s.data = c :: l) (hc : c ≠ 'T') (k : Nat) :
    s ≠ "Table_" ++ Nat.repr k := by
  intro h
  have hd := congrArg String.data h
  rw [hs, String.data_append,
    show "Table_".data = 'T' :: "able_".data from rfl, List.cons_append] at hd
  simp only [List.cons.injEq] at hd
  exact hc hd.1

/-! ### The claims -/

theorem create_images_zip_eq (images : List ImageRecord) :
    create_images_zip images = images.map fun r => (r.filename, r.bytes) := by
  have key : ∀ (l : List ImageRecord) (acc : List (String × List Nat)),
      l.foldl (fun z r => writestr z r.filename r.bytes) acc =
        acc ++ l.map fun r => (r.filename, r.bytes) := by
    intro l
    induction l with
    | nil => intro acc; simp
    | cons r rs ih =>
      intro acc
      rw [List.foldl_cons, ih]
      simp [writestr, List.append_assoc]
  simpa using key images []

/-- C1: writing a list of image records with `create_images_zip` and reading
the archive back yields, for every record, a byte-identical payload stored
under that record's filename. -/
theorem zip_round_trips_every_record (images : List ImageRecord)
    (r : ImageRecord) (h : r ∈ images) :
    (r.filename, r.bytes) ∈ create_images_zip images := by
  rw [create_images_zip_eq]
  exact List.mem_map.mpr ⟨r, h, rfl⟩

theorem zip_round_trips_every_record_witness :
    sampleRecord ∈ [sampleRecord] ∧
    (sampleRecord.filename, sampleRecord.bytes) ∈ create_images_zip [sampleRecord] :=
  ⟨by decide, zip_round_trips_every_record [sampleRecord] sampleRecord (by decide)⟩

/-- C5: every extraction entry point wraps its library call in a catch-all:
when the underlying library raises, the function shows one error message and
returns the empty list instead of propagating the exception. -/
theorem extraction_catch_all (e : String) :
    extract_tables_from_pdf (.error e) =
      ([], ["Error extracting tables: " ++ e]) ∧
    extract_images_from_pdf (.error e) =
      ([], ["Error extracting images: " ++ e]) ∧
    extract_images_alternative_method (.error e) =
      ([], ["Error in alternative image extraction: " ++ e]) :=
  ⟨rfl, rfl, rfl⟩

/-- C2: for a non-empty table list, the workbook holds exactly one sheet per
table, named `Table_1 .. Table_N` in list order (followed only by the
`Extracted_Images` sheet when images exist), and the k-th sheet carries the
k-th table's grid. -/
theorem excel_one_sheet_per_table (tables : List Table)
    (images : List ImageRecord) (imgFail : List Nat → Option String)
    (h : tables ≠ []) :
    ((create_excel_with_tables_and_images tables images imgFail).1).map Sheet.name =
      (List.range tables.length).map (fun k => "Table_" ++ Nat.repr (k + 1)) ++
        (if images.isEmpty then [] else ["Extracted_Images"]) ∧
    ∀ (k : Nat) (t : Table), tables[k]? = some t →
      ((create_excel_with_tables_and_images tables images imgFail).1)[k]? =
        some ⟨"Table_" ++ Nat.repr (k + 1), .grid (tableGrid t)⟩ := by
  have hne : tables.isEmpty = false := by
    cases tables with
    | nil => exact absurd rfl h
    | cons t ts => rfl
  have hbase : tableSheets tables = tableSheetsFrom 0 tables := by
    unfold tableSheets
    rw [hne]
    rfl
  have hnames : (tableSheetsFrom 0 tables).map Sheet.name =
      (List.range tables.length).map (fun k => "Table_" ++ Nat.repr (k + 1)) := by
    rw [tableSheetsFrom_names]
    apply List.map_congr_left
    intro k _
    have : 0 + k + 1 = k + 1 := by omega
    rw [this]
  have hget : ∀ (k : Nat) (t : Table), tables[k]? = some t →
      (tableSheetsFrom 0 tables)[k]? =
        some ⟨"Table_" ++ Nat.repr (k + 1), .grid (tableGrid t)⟩ := by
    intro k t ht
    rw [tableSheetsFrom_getElem, ht]
    have : 0 + k + 1 = k + 1 := by omega
    rw [this]
    rfl
  unfold create_excel_with_tables_and_images
  by_cases hi : images.isEmpty
  · rw [if_pos hi, hi]
    simp only [if_pos]
    rw [hbase]
    exact ⟨by rw [hnames, List.append_nil], hget⟩
  · rw [if_neg hi]
    have hi' : images.isEmpty = false := by
      cases hh : images.isEmpty
      · rfl
      · exact absurd hh hi
    rw [hi']
    simp only [Bool.false_eq_true, if_false]
    constructor
    · rw [List.map_append, hbase, hnames]
      rfl
    · intro k t ht
      have hk : k < tables.length := by
        cases hlt : Nat.decLt k tables.length with
        | isTrue p => exact p
        | isFalse p =>
          exfalso
          rw [List.getElem?_eq_none (by omega)] at ht
          cases ht
      rw [hbase] at *
      rw [List.getElem?_append_left (by rw [tableSheetsFrom_length]; exact hk)]
      exact hget k t ht

theorem excel_one_sheet_per_table_witness :
    ([⟨["h"], [["v"]]⟩] : List Table) ≠ [] ∧
    (((create_excel_with_tables_and_images [⟨["h"], [["v"]]⟩] []
        (fun _ => none)).1).map Sheet.name =
      (List.range ([⟨["h"], [["v"]]⟩] : List Table).length).map
        (fun k => "Table_" ++ Nat.repr (k + 1)) ++
        (if ([] : List ImageRecord).isEmpty then [] else ["Extracted_Images"]) ∧
    ∀ (k : Nat) (t : Table), ([⟨["h"], [["v"]]⟩] : List Table)[k]? = some t →
      ((create_excel_with_tables_and_images [⟨["h"], [["v"]]⟩] []
          (fun _ => none)).1)[k]? =
        some ⟨"Table_" ++ Nat.repr (k + 1), .grid (tableGrid t)⟩) :=
  ⟨by decide, excel_one_sheet_per_table _ _ _ (by decide)⟩

/-- C3: with an empty table list the workbook's table pass produces exactly
the `No_Tables` placeholder sheet carrying the "No tables found in PDF"
message, and no sheet of the workbook is a `Table_{k}` sheet. -/
theorem excel_placeholder_when_no_tables (images : List ImageRecord)
    (imgFail : List Nat → Option String) :
    (create_excel_with_tables_and_images [] images imgFail).1 =
      ⟨"No_Tables", .grid [["Message"], ["No tables found in PDF"]]⟩ ::
        (if images.isEmpty then []
         else [⟨"Extracted_Images",
           .imageSheet (buildImageItems imgFail 1 images).1⟩]) ∧
    ∀ s ∈ (create_excel_with_tables_and_images [] images imgFail).1,
      ∀ k : Nat, s.name ≠ "Table_" ++ Nat.repr k := by
  have hbase : tableSheets [] =
      [⟨"No_Tables", .grid [["Message"], ["No tables found in PDF"]]⟩] := rfl
  constructor
  · unfold create_excel_with_tables_and_images
    by_cases hi : images.isEmpty
    · rw [if_pos hi, if_pos hi, hbase]
    · rw [if_neg hi, if_neg hi, hbase]
      rfl
  · intro s hs k
    have hname : s.name = "No_Tables" ∨ s.name = "Extracted_Images" := by
      unfold create_excel_with_tables_and_images at hs
      by_cases hi : images.isEmpty
      · rw [if_pos hi, hbase] at hs
        simp only [List.mem_singleton] at hs
        subst hs
        exact Or.inl rfl
      · rw [if_neg hi, hbase] at hs
        simp only [List.cons_append, List.nil_append, List.mem_cons,
          List.not_mem_nil, or_false] at hs
        rcases hs with rfl | rfl
        · exact Or.inl rfl
        · exact Or.inr rfl
    rcases hname with hn | hn <;> rw [hn]
    · exact ne_table_name _ 'N' _ rfl (by decide) k
    · exact ne_table_name _ 'E' _ rfl (by decide) k

theorem excel_placeholder_when_no_tables_witness :
    (⟨"No_Tables", .grid [["Message"], ["No tables found in PDF"]]⟩ : Sheet) ∈
      (create_excel_with_tables_and_images [] [] (fun _ => none)).1 ∧
    ∀ s ∈ (create_excel_with_tables_and_images [] [] (fun _ => none)).1,
      ∀ k : Nat, s.name ≠ "Table_" ++ Nat.repr k :=
  ⟨by rw [(excel_placeholder_when_no_tables [] (fun _ => none)).1]; decide,
    (excel_placeholder_when_no_tables [] (fun _ => none)).2⟩

/-- C7 counterexample: with one table and an empty image list the saved
workbook contains no `Extracted_Images` sheet at all, so the claim's "for
every input" fails. -/
theorem excel_images_sheet_counterexample :
    "Extracted_Images" ∉
      ((create_excel_with_tables_and_images [sampleTable] [] noImgFail).1).map
        Sheet.name := by
  decide

theorem buildImageItems_spec (imgFail : List Nat → Option String)
    (images : List ImageRecord) :
    ∀ (row : Nat), ∀ it ∈ (buildImageItems imgFail row images).1,
      ∃ r ∈ images, it.bytes = r.bytes ∧
        it.caption =
          "Page " ++ Nat.repr r.page ++ ", Image " ++ Nat.repr (r.index + 1) ∧
        it.filename = r.filename := by
  induction images with
  | nil => intro row it hit; simp [buildImageItems] at hit
  | cons r rs ih =>
    intro row it hit
    cases hf : imgFail r.bytes with
    | none =>
      simp only [buildImageItems, hf, List.mem_cons] at hit
      rcases hit with rfl | hit
      · exact ⟨r, List.mem_cons_self r rs, rfl, rfl, rfl⟩
      · obtain ⟨r', hr', h1, h2, h3⟩ := ih (row + 20) it hit
        exact ⟨r', List.mem_cons_of_mem r hr', h1, h2, h3⟩
    | some e =>
      simp only [buildImageItems, hf] at hit
      obtain ⟨r', hr', h1, h2, h3⟩ := ih row it hit
      exact ⟨r', List.mem_cons_of_mem r hr', h1, h2, h3⟩

/-- C7 (amended): for every input with a non-empty image list the workbook is
the tables-only workbook (one sheet per table, or the placeholder) extended
with exactly one `Extracted_Images` sheet, in which every embedded image is
accompanied by its page/index caption and its filename; with an empty image
list no `Extracted_Images` sheet is created. -/
theorem excel_images_sheet (tables : List Table) (images : List ImageRecord)
    (imgFail : List Nat → Option String) (h : images ≠ []) :
    ∃ items,
      (create_excel_with_tables_and_images tables images imgFail).1 =
        (create_excel_with_tables_and_images tables [] imgFail).1 ++
          [⟨"Extracted_Images", SheetContent.imageSheet items⟩] ∧
      ∀ it ∈ items, ∃ r ∈ images, it.bytes = r.bytes ∧
        it.caption =
          "Page " ++ Nat.repr r.page ++ ", Image " ++ Nat.repr (r.index + 1) ∧
        it.filename = r.filename := by
  have hi : images.isEmpty = false := by
    cases images with
    | nil => exact absurd rfl h
    | cons a l => rfl
  refine ⟨(buildImageItems imgFail 1 images).1, ?_, ?_⟩
  · unfold create_excel_with_tables_and_images
    rw [hi]
    rfl
  · exact fun it hit => buildImageItems_spec imgFail images 1 it hit

theorem excel_images_sheet_witness :
    ([sampleRecord] : List ImageRecord) ≠ [] ∧
    ∃ items,
      (create_excel_with_tables_and_images [] [sampleRecord] noImgFail).1 =
        (create_excel_with_tables_and_images [] [] noImgFail).1 ++
          [⟨"Extracted_Images", SheetContent.imageSheet items⟩] ∧
      ∀ it ∈ items, ∃ r ∈ [sampleRecord], it.bytes = r.bytes ∧
        it.caption =
          "Page " ++ Nat.repr r.page ++ ", Image " ++ Nat.repr (r.index + 1) ∧
        it.filename = r.filename :=
  ⟨by decide, excel_images_sheet [] [sampleRecord] noImgFail (by decide)⟩

/-- C4: one failing per-image extraction aborts nothing: every embedded image
that renders successfully — on the same page or any other — still contributes
its record, the failure shows exactly its warning message, and the failed
(page, index) slot yields no record. -/
theorem image_failure_does_not_abort (pages : List Page) (p j : Nat)
    (pg : Page) (img : EmbImage) (e : String)
    (hp : pages[p]? = some pg) (hj : pg.images[j]? = some img)
    (he : img.cropRender = .error e) :
    (∀ (pn jn : Nat) (pg' : Page) (img' : EmbImage) (bs : List Nat),
        pages[pn]? = some pg' → pg'.images[jn]? = some img' →
        img'.cropRender = .ok bs →
        embRecord pn jn bs ∈ (extract_images_from_pdf (.ok pages)).1) ∧
    ("Could not extract image " ++ Nat.repr j ++ " from page " ++
        Nat.repr (p + 1) ++ ": " ++ e) ∈
      (extract_images_from_pdf (.ok pages)).2 ∧
    ∀ r ∈ (extract_images_from_pdf (.ok pages)).1,
      ¬(r.page = p + 1 ∧ r.index = j) := by
  refine ⟨?_, ?_, ?_⟩
  · intro pn jn pg' img' bs hpn hjn hok
    show embRecord pn jn bs ∈ (extractPages 0 pages).1
    refine (mem_extractPages pages 0 _).mpr ⟨pn, pg', hpn, ?_⟩
    rw [mem_extractPage]
    left
    refine ⟨jn, img', bs, hjn, hok, ?_⟩
    rw [Nat.zero_add]
  · show _ ∈ (extractPages 0 pages).2
    refine (mem_extractPages_warn pages 0 _).mpr ⟨p, pg, hp, ?_⟩
    rw [extractPage_warn]
    refine (mem_extractEmbedded_warn _ _ 0 _).mpr ⟨j, img, e, hj, he, ?_⟩
    rw [Nat.zero_add, Nat.zero_add]
  · rintro r hr ⟨hpage, hidx⟩
    obtain ⟨pn, pg', hpn, hmem⟩ := (mem_extractPages pages 0 r).mp hr
    have hf := extractPage_fields (0 + pn) pg' r hmem
    have hpn_eq : pn = p := by omega
    subst hpn_eq
    rw [hp] at hpn
    cases hpn
    rcases (mem_extractPage (0 + pn) pg r).mp hmem with
      ⟨j', img', bs, hj', hok, hre⟩ | ⟨hempty, _, _, _, _⟩
    · have hidx2 : j' = j := by
        have h0 : r.index = j' := by rw [hre]; rfl
        rw [h0] at hidx
        exact hidx
      subst hidx2
      rw [hj] at hj'
      cases hj'
      rw [he] at hok
      cases hok
    · rw [hempty] at hj
      simp at hj

theorem image_failure_does_not_abort_witness :
    ([samplePage] : List Page)[0]? = some samplePage ∧
    samplePage.images[0]? = some badImage ∧
    badImage.cropRender = .error "bad" ∧
    ("Could not extract image " ++ Nat.repr 0 ++ " from page " ++
        Nat.repr (0 + 1) ++ ": " ++ "bad") ∈
      (extract_images_from_pdf (.ok [samplePage])).2 ∧
    embRecord 0 1 [7] ∈ (extract_images_from_pdf (.ok [samplePage])).1 :=
  ⟨rfl, rfl, rfl,
    (image_failure_does_not_abort [samplePage] 0 0 samplePage badImage "bad"
      rfl rfl rfl).2.1,
    (image_failure_does_not_abort [samplePage] 0 0 samplePage badImage "bad"
      rfl rfl rfl).1 0 1 samplePage okImage [7] rfl rfl rfl⟩

/-- C8 counterexample: a page with no embedded images and no figures, curves
or rects contributes no record at all — the whole-page fallback does not fire
for every image-less page, only for those with visual content. -/
theorem page_fallback_counterexample :
    (extract_images_from_pdf (.ok [blankPage])).1 = [] := rfl

/-- C8 (amended): for every page with no embedded images that has at least
one figure, curve or rect and whose rasterization succeeds, the fallback
appends the whole-page PNG record. -/
theorem page_fallback_rasterizes (pages : List Page) (p : Nat) (pg : Page)
    (bs : List Nat) (hp : pages[p]? = some pg) (himg : pg.images = [])
    (hvis : (pg.figures || pg.curves || pg.rects) = true)
    (hrender : pg.pageRender = .ok bs) :
    visRecord p bs ∈ (extract_images_from_pdf (.ok pages)).1 ∧
    (visRecord p bs).ext = "png" ∧
    (visRecord p bs).filename = visName (p + 1) := by
  refine ⟨?_, rfl, rfl⟩
  show visRecord p bs ∈ (extractPages 0 pages).1
  refine (mem_extractPages pages 0 _).mpr ⟨p, pg, hp, ?_⟩
  rw [mem_extractPage]
  right
  refine ⟨himg, hvis, bs, hrender, ?_⟩
  rw [Nat.zero_add]

theorem page_fallback_rasterizes_witness :
    ([visPage] : List Page)[0]? = some visPage ∧ visPage.images = [] ∧
    (visPage.figures || visPage.curves || visPage.rects) = true ∧
    visPage.pageRender = .ok [1] ∧
    visRecord 0 [1] ∈ (extract_images_from_pdf (.ok [visPage])).1 :=
  ⟨rfl, rfl, rfl, rfl,
    (page_fallback_rasterizes [visPage] 0 visPage [1] rfl rfl rfl rfl).1⟩

/-- C6 counterexample: the whole-page fallback record of a page with figures
but no embedded images carries the filename `page_1_visual_content.png`,
which matches neither spec shape `image_page{N}_{i}.{ext}` nor `page_{N}.png`. -/
theorem filename_shape_counterexample :
    visRecord 0 [1] ∈ (extract_images_from_pdf (.ok [visPage])).1 ∧
    ¬ specEmbShape (visRecord 0 [1]).filename ∧
    ¬ specPageShape (visRecord 0 [1]).filename := by
  refine ⟨?_, ?_, ?_⟩
  · show visRecord 0 [1] ∈ [visRecord 0 [1]]
    simp
  · rintro ⟨N, i, ext, h⟩
    have h' : visName 1 = "image_page" ++ Nat.repr N ++ "_" ++ Nat.repr i ++
        "." ++ ext := h
    have hd := congrArg String.data h'
    rw [data_visName] at hd
    simp only [String.data_append, List.append_assoc] at hd
    have hh := congrArg List.head? hd
    simp only [List.cons_append, List.head?_cons, Option.some.injEq] at hh
    exact absurd hh (by decide)
  · rintro ⟨N, h⟩
    exact visName_ne_pageName 1 N h

theorem embName_shape (a i : Nat) :
    embName a i =
      "image_page" ++ Nat.repr a ++ "_" ++ Nat.repr i ++ "." ++ "png" := by
  apply string_data_inj
  simp only [embName, String.data_append, List.append_assoc]
  rfl

/-- C6 (amended): every filename of a record produced by
`extract_images_from_pdf` or `extract_images_alternative_method` matches one
of the three derived shapes `image_page{N}_{i}.{ext}`, `page_{N}.png` or
`page_{N}_visual_content.png`. -/
theorem filename_shapes (pdf : Except String (List Page)) (r : ImageRecord)
    (h : r ∈ (extract_images_from_pdf pdf).1 ∨
      r ∈ (extract_images_alternative_method pdf).1) :
    specEmbShape r.filename ∨ specPageShape r.filename ∨
      specVisShape r.filename := by
  cases pdf with
  | error e =>
    rcases h with h | h <;>
      simp [extract_images_from_pdf, extract_images_alternative_method] at h
  | ok pages =>
    rcases h with h | h
    · obtain ⟨p, pg, _, hmem⟩ := (mem_extractPages pages 0 r).mp h
      rcases (extractPage_fields _ _ _ hmem).2 with hf | hf
      · exact Or.inl ⟨0 + p + 1, r.index, "png", by rw [hf]; exact embName_shape _ _⟩
      · exact Or.inr (Or.inr ⟨0 + p + 1, by rw [hf]; rfl⟩)
    · obtain ⟨p, pg, bs, _, _, rfl⟩ := (mem_altPages pages 0 r).mp h
      exact Or.inr (Or.inl ⟨0 + p + 1, rfl⟩)

theorem filename_shapes_witness :
    (visRecord 0 [1] ∈ (extract_images_from_pdf (.ok [visPage])).1 ∨
      visRecord 0 [1] ∈ (extract_images_alternative_method (.ok [visPage])).1) ∧
    (specEmbShape (visRecord 0 [1]).filename ∨
      specPageShape (visRecord 0 [1]).filename ∨
      specVisShape (visRecord 0 [1]).filename) :=
  ⟨Or.inl (by show visRecord 0 [1] ∈ [visRecord 0 [1]]; simp),
    filename_shapes (.ok [visPage]) (visRecord 0 [1])
      (Or.inl (by show visRecord 0 [1] ∈ [visRecord 0 [1]]; simp))⟩

/-- C9: the filenames returned by one call to `extract_images_from_pdf` are
pairwise distinct, the combined list after extending with the alternative
method's records still has pairwise-distinct filenames (so no ZIP entry
shadows another), and a whole-page fallback record only arises from a page
with no embedded images. -/
theorem filenames_pairwise_distinct (pages : List Page) :
    (((extract_images_from_pdf (.ok pages)).1).map ImageRecord.filename).Nodup ∧
    ((((extract_images_from_pdf (.ok pages)).1 ++
        (extract_images_alternative_method (.ok pages)).1).map
        ImageRecord.filename)).Nodup ∧
    ∀ (p : Nat) (pg : Page) (bs : List Nat), pages[p]? = some pg →
      visRecord p bs ∈ (extract_images_from_pdf (.ok pages)).1 →
      pg.images = [] := by
  refine ⟨extractPages_names_nodup pages 0, ?_, ?_⟩
  · rw [List.map_append, List.nodup_append]
    refine ⟨extractPages_names_nodup pages 0, altPages_names_nodup pages 0, ?_⟩
    intro s hs1 hs2
    obtain ⟨r1, hr1, rfl⟩ := List.mem_map.mp hs1
    obtain ⟨r2, hr2, hfn⟩ := List.mem_map.mp hs2
    obtain ⟨p, pg, _, hmem⟩ := (mem_extractPages pages 0 r1).mp hr1
    have f1 := (extractPage_fields (0 + p) pg r1 hmem).2
    have f2 := (altPages_fields pages 0 r2 hr2).2
    rw [f2] at hfn
    rcases f1 with hf | hf <;> rw [hf] at hfn
    · exact embName_ne_pageName (0 + p + 1) r1.index r2.page hfn.symm
    · exact visName_ne_pageName (0 + p + 1) r2.page hfn.symm
  · intro p pg bs hp hmem
    obtain ⟨pn, pg', hpn, hmem'⟩ :=
      (mem_extractPages pages 0 (visRecord p bs)).mp hmem
    have hpage : (visRecord p bs).page = 0 + pn + 1 :=
      (extractPage_fields (0 + pn) pg' _ hmem').1
    have hpn_eq : pn = p := by
      have : (visRecord p bs).page = p + 1 := rfl
      omega
    subst hpn_eq
    rw [hp] at hpn
    cases hpn
    rcases (mem_extractPage (0 + pn) pg _).mp hmem' with
      ⟨j', img', bs', _, _, hre⟩ | ⟨hempty, _⟩
    · exact absurd (congrArg ImageRecord.filename hre).symm
        (embName_ne_visName (0 + pn + 1) j' (pn + 1))
    · exact hempty

theorem filenames_pairwise_distinct_witness :
    ([visPage] : List Page)[0]? = some visPage ∧
    visRecord 0 [1] ∈ (extract_images_from_pdf (.ok [visPage])).1 ∧
    visPage.images = [] ∧
    ((((extract_images_from_pdf (.ok [visPage])).1 ++
        (extract_images_alternative_method (.ok [visPage])).1).map
        ImageRecord.filename)).Nodup :=
  ⟨rfl, by show visRecord 0 [1] ∈ [visRecord 0 [1]]; simp,
    (filenames_pairwise_distinct [visPage]).2.2 0 visPage [1] rfl
      (by show visRecord 0 [1] ∈ [visRecord 0 [1]]; simp),
    (filenames_pairwise_distinct [visPage]).2.1⟩

theorem embName_ends_png (a i : Nat) :
    ∃ l, (embName a i).data = l ++ ".png".data := by
  refine ⟨"image_page".data ++ ((Nat.repr a).data ++ ('_' :: (Nat.repr i).data)), ?_⟩
  rw [data_embName]
  simp [List.append_assoc, List.cons_append]

theorem visName_ends_png (a : Nat) :
    ∃ l, (visName a).data = l ++ ".png".data := by
  refine ⟨"page_".data ++ ((Nat.repr a).data ++ "_visual_content".data), ?_⟩
  rw [data_visName]
  simp [List.append_assoc, List.cons_append]

theorem pageName_ends_png (a : Nat) :
    ∃ l, (pageName a).data = l ++ ".png".data := by
  refine ⟨"page_".data ++ (Nat.repr a).data, ?_⟩
  rw [data_pageName]
  simp [List.append_assoc]

theorem extractEmbedded_strip (k : Nat) (imgs : List EmbImage) :
    ∀ i0 : Nat,
      extractEmbedded k i0 (imgs.map fun im => { im with native := [] }) =
        extractEmbedded k i0 imgs := by
  induction imgs with
  | nil => intro i0; rfl
  | cons im rest ih =>
    intro i0
    cases him : im.cropRender with
    | ok bs => simp only [List.map_cons, extractEmbedded, him, ih (i0 + 1)]
    | error e => simp only [List.map_cons, extractEmbedded, him, ih (i0 + 1)]

theorem pageFallback_strip (k : Nat) (pg : Page) :
    pageFallback k (stripNative pg) = pageFallback k pg := by
  cases hi : pg.images with
  | nil => simp [pageFallback, stripNative, hi]
  | cons a l => simp [pageFallback, stripNative, hi]

theorem extractPage_strip (k : Nat) (pg : Page) :
    extractPage k (stripNative pg) = extractPage k pg := by
  unfold extractPage
  have h1 : (stripNative pg).images =
      pg.images.map fun im => { im with native := [] } := rfl
  rw [h1, extractEmbedded_strip k pg.images 0, pageFallback_strip]

theorem extractPages_strip (ps : List Page) :
    ∀ k : Nat, extractPages k (ps.map stripNative) = extractPages k ps := by
  induction ps with
  | nil => intro k; rfl
  | cons pg rest ih =>
    intro k
    simp only [List.map_cons, extractPages]
    rw [extractPage_strip, ih (k + 1)]

theorem altPages_strip (ps : List Page) :
    ∀ k : Nat, altPages k (ps.map stripNative) = altPages k ps := by
  induction ps with
  | nil => intro k; rfl
  | cons pg rest ih =>
    intro k
    simp only [List.map_cons, altPages]
    have h : (stripNative pg).pageRender = pg.pageRender := rfl
    rw [h, ih (k + 1)]

/-- C10: every record of either extractor has `ext = "png"`, a filename
ending in `.png`, `page` equal to the 1-based number of its source page, and
bytes coming from the PNG rendering pipeline of that page (an embedded
image's crop render, or the whole-page render) — never an embedded image's
native bytes: both extractors are invariant under erasing all native bytes. -/
theorem records_are_png (pages : List Page) :
    (∀ r ∈ (extract_images_from_pdf (.ok pages)).1,
      r.ext = "png" ∧ (∃ l, r.filename.data = l ++ ".png".data) ∧
      ∃ p pg, pages[p]? = some pg ∧ r.page = p + 1 ∧
        ((∃ img ∈ pg.images, img.cropRender = .ok r.bytes) ∨
          pg.pageRender = .ok r.bytes)) ∧
    (∀ r ∈ (extract_images_alternative_method (.ok pages)).1,
      r.ext = "png" ∧ (∃ l, r.filename.data = l ++ ".png".data) ∧
      ∃ p pg, pages[p]? = some pg ∧ r.page = p + 1 ∧
        pg.pageRender = .ok r.bytes) ∧
    extract_images_from_pdf (.ok (pages.map stripNative)) =
      extract_images_from_pdf (.ok pages) ∧
    extract_images_alternative_method (.ok (pages.map stripNative)) =
      extract_images_alternative_method (.ok pages) := by
  refine ⟨?_, ?_, extractPages_strip pages 0, altPages_strip pages 0⟩
  · intro r hr
    obtain ⟨p, pg, hp, hmem⟩ := (mem_extractPages pages 0 r).mp hr
    rcases (mem_extractPage (0 + p) pg r).mp hmem with
      ⟨j, img, bs, hj, hok, rfl⟩ | ⟨_, _, bs, hrender, rfl⟩
    · refine ⟨rfl, embName_ends_png (0 + p + 1) j, p, pg, hp, by simp [embRecord], ?_⟩
      exact Or.inl ⟨img, List.getElem?_mem hj, hok⟩
    · exact ⟨rfl, visName_ends_png (0 + p + 1), p, pg, hp,
        by simp [visRecord], Or.inr hrender⟩
  · intro r hr
    obtain ⟨p, pg, bs, hp, hrender, rfl⟩ := (mem_altPages pages 0 r).mp hr
    exact ⟨rfl, pageName_ends_png (0 + p + 1), p, pg, hp,
      by simp [pageRecord], hrender⟩

theorem records_are_png_witness :
    visRecord 0 [1] ∈ (extract_images_from_pdf (.ok [visPage])).1 ∧
    ((visRecord 0 [1]).ext = "png" ∧
      (∃ l, (visRecord 0 [1]).filename.data = l ++ ".png".data) ∧
      ∃ p pg, ([visPage] : List Page)[p]? = some pg ∧
        (visRecord 0 [1]).page = p + 1 ∧
        ((∃ img ∈ pg.images, img.cropRender = .ok (visRecord 0 [1]).bytes) ∨
          pg.pageRender = .ok (visRecord 0 [1]).bytes)) :=
  ⟨by show visRecord 0 [1] ∈ [visRecord 0 [1]]; simp,
    (records_are_png [visPage]).1 (visRecord 0 [1])
      (by show visRecord 0 [1] ∈ [visRecord 0 [1]]; simp)⟩

end PdfTool
